import Mathlib

/-!
Shallow embedding of the image-optimizer repository.

The repository contains two client implementations concatenated in
src/src/main.js (called V1 here, the ImagePool client at lines 1-295, and
V2, the jsquash client at lines 296-515), the current serverless handler in
src/netlify/functions/optimise.cjs (Netlify) and an older handler variant
in src/unnamed/part_000 (Legacy).

The encoders (squoosh ImagePool, jsquash encode, sharp) are external
collaborators; they are modelled by a size oracle enc : ℤ → ℕ giving the
byte size produced when encoding the (fixed) normalized image at a given
integer quality.  JS numbers are modelled as ℚ, JS Math.round x as
floor (x + 1/2) (round half toward positive infinity), JS Math.floor as
Int.floor.  JS strings are modelled as List Char.
-/

/-- Models JS Math.round: rounds half toward positive infinity. -/
def jsRound (x : ℚ) : ℤ := ⌊x + 1/2⌋

/-- Outcome of the adaptive one-or-two-pass quality controller: final chosen
byte size, whether a second encode happened, and the second-pass quality if
one was computed. -/
structure OptimizeOutcome where
  finalSize : ℕ
  twoPass : Bool
  pass2Quality : Option ℤ
deriving DecidableEq

/-- Fuel-driven version of the scan loop in imageHasAlpha (src/src/main.js
lines 210-216 and identically lines 487-493): starting at index i, test
whether data[i] < 255 and step the index by 4.  The fuel only serves
termination; data.length steps are always enough. -/
def alphaScanAux (data : List ℕ) : ℕ → ℕ → Bool
  | 0, _ => false
  | fuel + 1, i =>
    if i < data.length then
      if data.getD i 0 < 255 then true else alphaScanAux data fuel (i + 4)
    else false

/-- Embeds imageHasAlpha (src/src/main.js lines 210-216): scans the RGBA
byte buffer at indices 3, 7, 11, ... and returns true as soon as one alpha
byte is below 255. -/
def imageHasAlpha (data : List ℕ) : Bool := alphaScanAux data data.length 3

/-- Numeric value of a decimal digit string (digit c contributes
c.toNat - 48); evaluation map used to verify the decimal rendering of
counters in generated file names. -/
def charsVal (l : List Char) : ℕ := l.foldl (fun a c => 10 * a + (c.toNat - 48)) 0

namespace V1

/-- Embeds optimizeImageClientSide (src/src/main.js lines 11-61, ImagePool
client).  Pass 1 encodes at firstPassQuality; reduction is measured against
the byte size of the blob handed in; if reduction is at least 0.6 or the
pass-1 size is under 75 KiB the pass-1 blob is returned, otherwise a second
pass runs at Math.round(min + (max - min) * Math.min(1, reduction / 0.6))
and the pass-2 blob is returned unconditionally. -/
def optimizeImageClientSide (blobSize : ℕ)
    (firstPassQuality secondPassMinQuality secondPassMaxQuality : ℤ)
    (enc : ℤ → ℕ) : OptimizeOutcome :=
  let firstPassSize := enc firstPassQuality
  let reduction : ℚ := 1 - (firstPassSize : ℚ) / (blobSize : ℚ)
  if 3/5 ≤ reduction ∨ firstPassSize < 75 * 1024 then
    ⟨firstPassSize, false, none⟩
  else
    let qualityScale : ℚ := min 1 (reduction / (3/5))
    let adjustedQuality : ℤ :=
      jsRound ((secondPassMinQuality : ℚ) +
        ((secondPassMaxQuality : ℚ) - (secondPassMinQuality : ℚ)) * qualityScale)
    ⟨enc adjustedQuality, true, some adjustedQuality⟩

/-- Embeds the dimension computation of processImageThroughCanvas
(src/src/main.js lines 174-208): if width is the strictly larger dimension
and exceeds maxSize, height becomes Math.round(height * maxSize / width)
and width becomes maxSize; otherwise if height exceeds maxSize, width
becomes Math.round(width * maxSize / height) and height becomes maxSize;
otherwise the dimensions are unchanged. -/
def processImageThroughCanvasDims (w h maxSize : ℕ) : ℕ × ℕ :=
  if w > h ∧ w > maxSize then
    (maxSize, (jsRound ((h : ℚ) * (maxSize : ℚ) / (w : ℚ))).toNat)
  else if h > maxSize then
    ((jsRound ((w : ℚ) * (maxSize : ℚ) / (h : ℚ))).toNat, maxSize)
  else
    (w, h)

/-- Result of the V1 processFile pipeline: the controller outcome plus the
reduction ratio reported in the results row. -/
structure ProcessFileResult where
  outcome : OptimizeOutcome
  reportedReduction : ℚ

/-- Embeds processFile (src/src/main.js lines 134-172, ImagePool client):
the canvas-normalized blob (of size normBlobSize) is handed to
optimizeImageClientSide with the default parameters 70/40/65, so the
acceptance reduction inside is measured against normBlobSize, while the
percentage reported in the results row is measured against the original
file size. -/
def processFile (fileSize normBlobSize : ℕ) (enc : ℤ → ℕ) : ProcessFileResult :=
  let outcome := optimizeImageClientSide normBlobSize 70 40 65 enc
  ⟨outcome, 1 - (outcome.finalSize : ℚ) / (fileSize : ℚ)⟩

/-- Embeds the regex replace of processFile (src/src/main.js line 148): the
pattern matches a final dot followed by one or more characters that are
neither a dot nor a slash, anchored at the end, and removes it; when the
name has no such trailing extension it is left unchanged. -/
def stripExtension (fileName : List Char) : List Char :=
  let rev := fileName.reverse
  let ext := rev.takeWhile (fun c => c != '.' && c != '/')
  match rev.drop ext.length with
  | '.' :: rest => if ext = [] then fileName else rest.reverse
  | _ => fileName

/-- Embeds the output-name template of processFile (src/src/main.js lines
146-150, ImagePool client): the final file is named
x-(base).avif where (base) is the source name with its extension stripped;
no collision check of any kind is performed. -/
def outputName (fileName : List Char) : List Char :=
  ("x-").data ++ stripExtension fileName ++ (".avif").data

/-- Batch naming of the ImagePool client: every processed file is pushed to
processedFiles under outputName, with no uniqueness resolution. -/
def batchNames (fileNames : List (List Char)) : List (List Char) :=
  fileNames.map outputName

end V1

namespace V2

/-- Fuel-driven decimal rendering of a natural number, least significant
digit produced by n % 10 and the rest by recursion on n / 10; models the
implicit number-to-string conversion in the template literal of
getUniqueName (src/src/main.js line 386). -/
def natCharsAux : ℕ → ℕ → List Char
  | 0, _ => []
  | fuel + 1, n =>
    if n < 10 then [Nat.digitChar n]
    else natCharsAux fuel (n / 10) ++ [Nat.digitChar (n % 10)]

/-- Decimal digit string of a natural number (n + 1 fuel always suffices). -/
def natChars (n : ℕ) : List Char := natCharsAux (n + 1) n

/-- Candidate output names tried by getUniqueName (src/src/main.js lines
382-391): attempt 0 is baseName.extension, attempt k >= 1 is
baseName_k.extension. -/
def candidateName (baseName extension : List Char) : ℕ → List Char
  | 0 => baseName ++ ['.'] ++ extension
  | Nat.succ k => baseName ++ ['_'] ++ natChars (k + 1) ++ ['.'] ++ extension

/-- Fuel-driven version of the while loop of getUniqueName (src/src/main.js
lines 383-390): keep incrementing the counter while the candidate name is
already taken. -/
def getUniqueNameLoop (baseName extension : List Char)
    (existingNames : List (List Char)) : ℕ → ℕ → List Char
  | 0, count => candidateName baseName extension count
  | fuel + 1, count =>
    if candidateName baseName extension count ∈ existingNames then
      getUniqueNameLoop baseName extension existingNames fuel (count + 1)
    else candidateName baseName extension count

/-- Embeds getUniqueName (src/src/main.js lines 382-391).  The loop can
visit at most existingNames.length + 1 candidates before finding a free
one, so that much fuel is always enough. -/
def getUniqueName (baseName extension : List Char)
    (existingNames : List (List Char)) : List Char :=
  getUniqueNameLoop baseName extension existingNames (existingNames.length + 1) 0

/-- Models the batch naming behavior of processFile (src/src/main.js lines
393-394 and 432): each file's output name is chosen by getUniqueName
against the names of all previously produced files, and is then added to
the collection. -/
def assignNames : List (List Char × List Char) → List (List Char) → List (List Char)
  | [], _ => []
  | (b, e) :: rest, existingNames =>
    let n := getUniqueName b e existingNames
    n :: assignNames rest (n :: existingNames)

/-- Embeds the dimension computation of imageToImageData (src/src/main.js
lines 467-485): scale = Math.min(1, maxSize / Math.max(width, height)),
output dimensions Math.floor(width * scale) and Math.floor(height * scale). -/
def imageToImageDataDims (w h maxSize : ℕ) : ℕ × ℕ :=
  let scale : ℚ := min 1 ((maxSize : ℚ) / ((max w h : ℕ) : ℚ))
  ((⌊(w : ℚ) * scale⌋).toNat, (⌊(h : ℚ) * scale⌋).toNat)

/-- Embeds the flattening choice of processFile (src/src/main.js lines
403-407): when the normalized buffer has alpha it is used as is; only when
it has no alpha is the image re-rendered with forceOpaque = true (white
background filled before drawing).  The Bool records whether the flattening
branch was taken. -/
def selectFinalImageData (imageData flattened : List ℕ) : List ℕ × Bool :=
  if imageHasAlpha imageData then (imageData, false) else (flattened, true)

/-- Embeds the encoding passes of processFile (src/src/main.js lines
409-428, jsquash client): pass 1 at quality 70, reduction measured against
the original file size; if reduction < 0.3 a second pass runs at
Math.max(40, Math.round(quality * reduction)) and the smaller of the two
results is kept. -/
def processFilePasses (origSize : ℕ) (enc : ℤ → ℕ) : OptimizeOutcome :=
  let size1 := enc 70
  let reduction : ℚ := 1 - (size1 : ℚ) / (origSize : ℚ)
  if reduction < 3/10 then
    let adjustedQuality : ℤ := max 40 (jsRound (70 * reduction))
    let size2 := enc adjustedQuality
    if size2 < size1 then ⟨size2, true, some adjustedQuality⟩
    else ⟨size1, true, some adjustedQuality⟩
  else ⟨size1, false, none⟩

/-- Reduction percentage shown in the results row by processFile
(src/src/main.js line 434): measured against the original file size. -/
def reportedReduction (origSize : ℕ) (enc : ℤ → ℕ) : ℚ :=
  1 - ((processFilePasses origSize enc).finalSize : ℚ) / (origSize : ℚ)

end V2

namespace Netlify

/-- Models JS parseInt with radix 10 on a header value: an optional sign
followed by leading decimal digits; no digits gives NaN, modelled as none. -/
def jsParseInt (s : String) : Option ℤ :=
  let signed : ℤ × List Char :=
    match s.data with
    | '-' :: t => (-1, t)
    | '+' :: t => (1, t)
    | t => (1, t)
  let ds := signed.2.takeWhile Char.isDigit
  if ds = [] then none
  else some (signed.1 * ((ds.foldl (fun a c => 10 * a + (c.toNat - 48)) 0 : ℕ) : ℤ))

/-- Size ceiling of the request handler
(src/netlify/functions/optimise.cjs line 32). -/
def MAX_SIZE : ℕ := 10 * 1024 * 1024

/-- The parts of the Netlify event record that the handler inspects:
HTTP verb, the content-length header if present, and the decoded request
body bytes (none when no body was provided). -/
structure Event where
  httpMethod : String
  contentLengthHeader : Option String
  bodyBytes : Option (List ℕ)

/-- A thrown JS error as observed by the outer catch of the handler: it may
or may not carry its own statusCode property. -/
structure JsError where
  statusCode : Option ℕ

/-- Content length used by the size check
(src/netlify/functions/optimise.cjs line 33):
parseInt(event.headers['content-length'] || '0'); a missing header is
parsed as 0 and an unparsable one (NaN) also never exceeds the ceiling. -/
def parsedContentLength (e : Event) : ℤ :=
  (jsParseInt (e.contentLengthHeader.getD ("0"))).getD 0

/-- Embeds the control skeleton of the handler
(src/netlify/functions/optimise.cjs lines 15-217).  The image-processing
section (sharp metadata + encodes, wrapped in the 9 s timeout race) is
abstracted as proc, the outcome observed for a valid nonempty buffer;
the returned Bool records whether that processing section was reached.
A non-POST verb returns 405; a content-length header above MAX_SIZE
returns 413; a missing or empty body returns 400; a thrown error is
answered with error.statusCode || 500. -/
def handler (proc : Except JsError (ℕ × ℕ)) (e : Event) : ℕ × Bool :=
  if e.httpMethod ≠ ("POST") then (405, false)
  else if (MAX_SIZE : ℤ) < parsedContentLength e then (413, false)
  else
    match e.bodyBytes with
    | none => (400, false)
    | some [] => (400, false)
    | some (_ :: _) =>
      match proc with
      | Except.ok _ => (200, true)
      | Except.error err => (err.statusCode.getD 500, true)

/-- Embeds the encoding passes of the handler
(src/netlify/functions/optimise.cjs lines 135-190): pass 1 at quality 70,
reduction measured against the input buffer length; if reduction is at
least 0.6 or the pass-1 size is under 75 KiB the pass-1 buffer is the
response, otherwise a second pass runs at
Math.round(40 + (65 - 40) * Math.min(1, reduction / 0.6)) and the pass-2
buffer is the response unconditionally. -/
def handlerPasses (inputLen : ℕ) (enc : ℤ → ℕ) : OptimizeOutcome :=
  let size1 := enc 70
  let reduction : ℚ := 1 - (size1 : ℚ) / (inputLen : ℚ)
  if 3/5 ≤ reduction ∨ size1 < 75 * 1024 then ⟨size1, false, none⟩
  else
    let minQuality : ℚ := 40
    let maxQuality : ℚ := 65
    let qualityRange := maxQuality - minQuality
    let qualityScale := min 1 (reduction / (3/5))
    let adjustedQuality := jsRound (minQuality + qualityRange * qualityScale)
    ⟨enc adjustedQuality, true, some adjustedQuality⟩

end Netlify

namespace Legacy

/-- Embeds the encoding passes of the older handler variant
(src/unnamed/part_000 lines 59-91): pass 1 at quality 85, accept when
reduction is at least 0.5, otherwise a second pass at
Math.max(40, Math.round(40 + 40 * reduction)), returned unconditionally. -/
def handlerPasses (inputLen : ℕ) (enc : ℤ → ℕ) : OptimizeOutcome :=
  let size1 := enc 85
  let reduction : ℚ := 1 - (size1 : ℚ) / (inputLen : ℚ)
  if 1/2 ≤ reduction then ⟨size1, false, none⟩
  else
    let adjustedQuality := max 40 (jsRound (40 + 40 * reduction))
    ⟨enc adjustedQuality, true, some adjustedQuality⟩

end Legacy

namespace Queue

/-- Embeds the drain loop formed by processNext (src/src/main.js lines
115-132 and 362-379): shift the head of the file queue, run processFile on
it inside try/catch — a success records the result, a caught error marks
just that row as failed (none) — then continue with the rest of the queue.
run gives each item's processing outcome; results accumulates the
per-item reports in completion order. -/
def processNext {α β ε : Type} (run : α → Except ε β) :
    List α → List (α × Option β) → List (α × Option β)
  | [], results => results
  | file :: rest, results =>
    let report :=
      match run file with
      | Except.ok r => some r
      | Except.error _ => none
    processNext run rest (results ++ [(file, report)])

end Queue

/-- Concrete size oracle for scenarios where the second pass produces a
larger file than the first: 100000 bytes at quality 70, 150000 bytes at any
other quality. -/
def encGrow : ℤ → ℕ := fun q => if q = 70 then 100000 else 150000

/-- Concrete size oracle for an incompressible input where pass 1 enlarges
the data: 160000 bytes at quality 70, 200000 at any other quality. -/
def encEnlarge : ℤ → ℕ := fun q => if q = 70 then 160000 else 200000

/-- Concrete size oracle producing a small pass-1 file (under the 75 KiB
floor): 50000 bytes at quality 70, 45000 at any other quality. -/
def encSmall : ℤ → ℕ := fun q => if q = 70 then 50000 else 45000

/-! Helper lemmas shared between claims. -/

/-- The interpolated second-pass quality stays within [40, 65] for any
scale factor in [0, 1]. -/
theorem jsRound_quality_bounds {s : ℚ} (h0 : 0 ≤ s) (h1 : s ≤ 1) :
    40 ≤ jsRound (40 + (65 - 40) * s) ∧ jsRound (40 + (65 - 40) * s) ≤ 65 := by
  constructor
  · rw [jsRound]
    rw [Int.le_floor]
    push_cast
    nlinarith
  · rw [jsRound]
    have : (40 : ℚ) + (65 - 40) * s + 1/2 < 66 := by nlinarith
    have hlt := Int.floor_lt.mpr (by push_cast; linarith : (40 : ℚ) + (65 - 40) * s + 1/2 < ((66 : ℤ) : ℚ))
    omega

/-! Claim C1. -/

/-- C1 counterexample: in optimizeImageClientSide (ImagePool client) the
pass-2 blob is returned unconditionally, so with a 200000-byte blob whose
pass 1 yields 100000 bytes (reduction 0.5, forcing a second pass) and whose
pass 2 yields 150000 bytes, the final output is strictly larger than the
pass-1 candidate, contradicting the claim that the final size never exceeds
the pass-1 size. -/
theorem optimizeImageClientSide_regression_cex :
    (V1.optimizeImageClientSide 200000 70 40 65 encGrow).twoPass = true ∧
    encGrow 70 = 100000 ∧
    (V1.optimizeImageClientSide 200000 70 40 65 encGrow).finalSize = 150000 ∧
    ¬ (V1.optimizeImageClientSide 200000 70 40 65 encGrow).finalSize ≤ encGrow 70 := by
  unfold V1.optimizeImageClientSide encGrow
  norm_num [jsRound]

/-- C1 (amended): in the jsquash client's processFile, the variant that
compares the two candidates, the final chosen size never exceeds the pass-1
size: when pass 2 is larger the pass-1 candidate is kept. -/
theorem processFilePasses_never_regress (origSize : ℕ) (enc : ℤ → ℕ) :
    (V2.processFilePasses origSize enc).finalSize ≤ enc 70 := by
  unfold V2.processFilePasses
  dsimp only
  split
  · split
    · exact Nat.le_of_lt (by assumption)
    · exact Nat.le_refl _
  · exact Nat.le_refl _

/-! Claim C2. -/

/-- C2 (amended): in optimizeImageClientSide and the optimise.cjs handler,
the pass-1 candidate is accepted exactly when the reduction is at least 0.6
or the pass-1 size is under 75 KiB, in which case the final output is the
pass-1 candidate; otherwise a second pass runs. -/
theorem acceptance_rule_sixty_percent (sz : ℕ) (enc : ℤ → ℕ) :
    ((V1.optimizeImageClientSide sz 70 40 65 enc).twoPass = false ↔
      3/5 ≤ 1 - (enc 70 : ℚ) / (sz : ℚ) ∨ enc 70 < 75 * 1024) ∧
    ((V1.optimizeImageClientSide sz 70 40 65 enc).twoPass = false →
      (V1.optimizeImageClientSide sz 70 40 65 enc).finalSize = enc 70) ∧
    ((Netlify.handlerPasses sz enc).twoPass = false ↔
      3/5 ≤ 1 - (enc 70 : ℚ) / (sz : ℚ) ∨ enc 70 < 75 * 1024) ∧
    ((Netlify.handlerPasses sz enc).twoPass = false →
      (Netlify.handlerPasses sz enc).finalSize = enc 70) := by
  unfold V1.optimizeImageClientSide Netlify.handlerPasses
  dsimp only
  by_cases hc : 3/5 ≤ 1 - (enc 70 : ℚ) / (sz : ℚ) ∨ enc 70 < 75 * 1024
  · rw [if_pos hc, if_pos hc]
    simp [hc]
  · rw [if_neg hc, if_neg hc]
    simp [hc]

/-- C2 witness: with a 200000-byte blob whose pass 1 yields 100000 bytes,
the acceptance test fails (reduction 0.5, size at least 75 KiB) and the
rule of acceptance_rule_sixty_percent confirms a second pass runs. -/
theorem acceptance_rule_sixty_percent_witness :
    ((V1.optimizeImageClientSide 200000 70 40 65 encGrow).twoPass = false ↔
      3/5 ≤ 1 - (encGrow 70 : ℚ) / (200000 : ℚ) ∨ encGrow 70 < 75 * 1024) ∧
    ((V1.optimizeImageClientSide 200000 70 40 65 encGrow).twoPass = false →
      (V1.optimizeImageClientSide 200000 70 40 65 encGrow).finalSize = encGrow 70) ∧
    ((Netlify.handlerPasses 200000 encGrow).twoPass = false ↔
      3/5 ≤ 1 - (encGrow 70 : ℚ) / (200000 : ℚ) ∨ encGrow 70 < 75 * 1024) ∧
    ((Netlify.handlerPasses 200000 encGrow).twoPass = false →
      (Netlify.handlerPasses 200000 encGrow).finalSize = encGrow 70) :=
  acceptance_rule_sixty_percent 200000 encGrow

/-- C2 counterexample: the jsquash client's processFile uses the 0.3
threshold and has no 75 KiB size floor, so an original of 60000 bytes whose
pass 1 yields 50000 bytes (well under 75 KiB, reduction about 0.17) still
gets a second encoding pass, contradicting the claim that a sub-75 KiB
pass-1 candidate is always accepted without a second pass. -/
theorem processFilePasses_size_floor_cex :
    encSmall 70 < 75 * 1024 ∧
    (V2.processFilePasses 60000 encSmall).twoPass = true := by
  unfold V2.processFilePasses encSmall
  norm_num [jsRound]

/-! Claim C3. -/

/-- C3 counterexample: with a 100000-byte input whose pass 1 enlarges it to
160000 bytes, the reduction is -0.6, the second pass runs (reduction below
0.6 and size at least 75 KiB), and the computed quality is
round(40 + 25 * min(1, -0.6/0.6)) = 15, which is strictly below the claimed
lower bound of 40: the formula is not clamped for negative reductions. -/
theorem secondPass_quality_below_min_cex :
    (V1.optimizeImageClientSide 100000 70 40 65 encEnlarge).twoPass = true ∧
    (V1.optimizeImageClientSide 100000 70 40 65 encEnlarge).pass2Quality = some 15 ∧
    (15 : ℤ) < 40 := by
  unfold V1.optimizeImageClientSide encEnlarge
  norm_num [jsRound]

/-- C3 (amended): in optimizeImageClientSide and the optimise.cjs handler,
every input triggering a second pass gets the quality
round(40 + (65 - 40) * min(1, reduction/0.6)); when the pass-1 reduction is
nonnegative this quality lies between 40 and 65 inclusive. -/
theorem secondPass_quality_formula (sz : ℕ) (enc : ℤ → ℕ)
    (hr : 0 ≤ 1 - (enc 70 : ℚ) / (sz : ℚ))
    (h2 : (V1.optimizeImageClientSide sz 70 40 65 enc).twoPass = true) :
    (V1.optimizeImageClientSide sz 70 40 65 enc).pass2Quality =
      some (jsRound (40 + (65 - 40) * min 1 ((1 - (enc 70 : ℚ) / (sz : ℚ)) / (3/5)))) ∧
    (Netlify.handlerPasses sz enc).pass2Quality =
      some (jsRound (40 + (65 - 40) * min 1 ((1 - (enc 70 : ℚ) / (sz : ℚ)) / (3/5)))) ∧
    ∀ q : ℤ, (V1.optimizeImageClientSide sz 70 40 65 enc).pass2Quality = some q →
      40 ≤ q ∧ q ≤ 65 := by
  by_cases hc : 3/5 ≤ 1 - (enc 70 : ℚ) / (sz : ℚ) ∨ enc 70 < 75 * 1024
  · exfalso
    have : (V1.optimizeImageClientSide sz 70 40 65 enc).twoPass = false := by
      unfold V1.optimizeImageClientSide
      dsimp only
      rw [if_pos hc]
    rw [h2] at this
    exact Bool.noConfusion this
  · have hscale0 : 0 ≤ (1 - (enc 70 : ℚ) / (sz : ℚ)) / (3/5) := by positivity
    have hred : ¬ 3/5 ≤ 1 - (enc 70 : ℚ) / (sz : ℚ) := fun h => hc (Or.inl h)
    have hscale1 : min 1 ((1 - (enc 70 : ℚ) / (sz : ℚ)) / (3/5)) ≤ 1 := min_le_left _ _
    have hmin0 : 0 ≤ min 1 ((1 - (enc 70 : ℚ) / (sz : ℚ)) / (3/5)) :=
      le_min (by norm_num) hscale0
    have hbounds := jsRound_quality_bounds hmin0 hscale1
    refine ⟨?_, ?_, ?_⟩
    · unfold V1.optimizeImageClientSide
      dsimp only
      rw [if_neg hc]
      norm_num
    · unfold Netlify.handlerPasses
      dsimp only
      rw [if_neg hc]
    · intro q hq
      have : (V1.optimizeImageClientSide sz 70 40 65 enc).pass2Quality =
          some (jsRound ((40 : ℚ) + ((65 : ℚ) - (40 : ℚ)) *
            min 1 ((1 - (enc 70 : ℚ) / (sz : ℚ)) / (3/5)))) := by
        unfold V1.optimizeImageClientSide
        dsimp only
        rw [if_neg hc]
        norm_num
      rw [this] at hq
      have hq2 : q = jsRound ((40 : ℚ) + ((65 : ℚ) - (40 : ℚ)) *
          min 1 ((1 - (enc 70 : ℚ) / (sz : ℚ)) / (3/5))) := (Option.some_inj.mp hq).symm
      rw [hq2]
      exact ⟨by exact_mod_cast hbounds.1, by exact_mod_cast hbounds.2⟩

/-- C3 witness: at a 200000-byte blob with pass-1 size 100000 (reduction
0.5, so a second pass runs), the formula theorem instantiates and yields
the quality round(40 + 25 * (5/6)) = 61, inside [40, 65]. -/
theorem secondPass_quality_formula_witness :
    (V1.optimizeImageClientSide 200000 70 40 65 encGrow).pass2Quality =
      some (jsRound (40 + (65 - 40) * min 1 ((1 - (encGrow 70 : ℚ) / (200000 : ℚ)) / (3/5)))) ∧
    (Netlify.handlerPasses 200000 encGrow).pass2Quality =
      some (jsRound (40 + (65 - 40) * min 1 ((1 - (encGrow 70 : ℚ) / (200000 : ℚ)) / (3/5)))) ∧
    ∀ q : ℤ, (V1.optimizeImageClientSide 200000 70 40 65 encGrow).pass2Quality = some q →
      40 ≤ q ∧ q ≤ 65 :=
  secondPass_quality_formula 200000 encGrow
    (by unfold encGrow; norm_num)
    (by unfold V1.optimizeImageClientSide encGrow; norm_num [jsRound])

/-! Claim C4. -/

/-- C4 counterexample: in the ImagePool client's processFile, a 1000000-byte
original whose canvas normalization re-encodes to a 200000-byte blob with
pass-1 AVIF size 100000 has reduction 0.9 against the original — the claim
then demands acceptance of pass 1 — yet the code measures the acceptance
reduction against the 200000-byte normalized blob (0.5) and runs a second
pass. -/
theorem acceptance_uses_normalized_size_cex :
    3/5 ≤ 1 - (encGrow 70 : ℚ) / (1000000 : ℚ) ∧
    (V1.processFile 1000000 200000 encGrow).outcome.twoPass = true := by
  unfold V1.processFile V1.optimizeImageClientSide encGrow
  norm_num [jsRound]

/-- C4 (amended): the reported reduction is always measured against the
original file size in both clients, and the jsquash client also measures
its acceptance reduction against the original size; but in the ImagePool
client the acceptance decision is a function of the normalized blob size
alone — it is entirely independent of the original file size. -/
theorem reported_vs_acceptance_sizes (fileSize fileSize2 normBlobSize origSize : ℕ)
    (enc : ℤ → ℕ) :
    (V1.processFile fileSize normBlobSize enc).outcome =
      (V1.processFile fileSize2 normBlobSize enc).outcome ∧
    (V1.processFile fileSize normBlobSize enc).reportedReduction =
      1 - ((V1.processFile fileSize normBlobSize enc).outcome.finalSize : ℚ) / (fileSize : ℚ) ∧
    ((V2.processFilePasses origSize enc).twoPass = false ↔
      ¬ (1 - (enc 70 : ℚ) / (origSize : ℚ) < 3/10)) ∧
    V2.reportedReduction origSize enc =
      1 - ((V2.processFilePasses origSize enc).finalSize : ℚ) / (origSize : ℚ) := by
  refine ⟨rfl, rfl, ?_, rfl⟩
  unfold V2.processFilePasses
  dsimp only
  by_cases hc : 1 - (enc 70 : ℚ) / (origSize : ℚ) < 3/10
  · rw [if_pos hc]
    by_cases hs : enc (max 40 (jsRound (70 * (1 - (enc 70 : ℚ) / (origSize : ℚ))))) < enc 70
    · rw [if_pos hs]
      simp [hc]
    · rw [if_neg hs]
      simp [hc]
  · rw [if_neg hc]
    simp [hc]


/-! Claim C5. -/

/-- Floor composed with toNat is monotone into a natural bound. -/
theorem floor_toNat_le {q : ℚ} {n : ℕ} (hq : q ≤ n) : (⌊q⌋).toNat ≤ n := by
  have h1 : ⌊q⌋ ≤ ⌊(n : ℚ)⌋ := Int.floor_le_floor hq
  rw [Int.floor_natCast] at h1
  omega

/-- Rounding to nearest never exceeds a natural upper bound of the value. -/
theorem jsRound_toNat_le {q : ℚ} {n : ℕ} (hq : q ≤ n) : (jsRound q).toNat ≤ n := by
  rw [jsRound]
  have h1 : ⌊q + 1/2⌋ < (n : ℤ) + 1 := Int.floor_lt.mpr (by push_cast; linarith)
  omega

/-- Dimension contract of imageToImageData: with positive input dimensions,
neither output dimension exceeds its input, and the larger output dimension
is exactly min(maxSize, larger input dimension). -/
theorem imageToImageDataDims_spec (w h maxSize : ℕ) (hw : 0 < w) (hh : 0 < h) :
    (V2.imageToImageDataDims w h maxSize).1 ≤ w ∧
    (V2.imageToImageDataDims w h maxSize).2 ≤ h ∧
    max (V2.imageToImageDataDims w h maxSize).1 (V2.imageToImageDataDims w h maxSize).2 =
      min maxSize (max w h) := by
  unfold V2.imageToImageDataDims
  dsimp only
  have hM : 0 < max w h := lt_of_lt_of_le hw (le_max_left w h)
  by_cases hcase : max w h ≤ maxSize
  · have hMq : (0 : ℚ) < ((max w h : ℕ) : ℚ) := by exact_mod_cast hM
    have hge : (1 : ℚ) ≤ (maxSize : ℚ) / ((max w h : ℕ) : ℚ) := by
      rw [one_le_div hMq]
      exact_mod_cast hcase
    rw [min_eq_left hge]
    simp only [mul_one, Int.floor_natCast, Int.toNat_natCast]
    exact ⟨le_refl w, le_refl h, (min_eq_right hcase).symm⟩
  · push_neg at hcase
    rcases le_total h w with hwh | hwh
    · have hmax : max w h = w := max_eq_left hwh
      rw [hmax]
      have hwq : (0 : ℚ) < (w : ℚ) := by exact_mod_cast hw
      have hle : (maxSize : ℚ) / (w : ℚ) ≤ 1 := by
        rw [div_le_one hwq]
        rw [hmax] at hcase
        exact_mod_cast le_of_lt hcase
      rw [min_eq_right hle]
      have heq : (w : ℚ) * ((maxSize : ℚ) / (w : ℚ)) = (maxSize : ℚ) := by
        field_simp
      have hfrac0 : (0 : ℚ) ≤ (maxSize : ℚ) / (w : ℚ) := by positivity
      have h2h : (h : ℚ) * ((maxSize : ℚ) / (w : ℚ)) ≤ (h : ℚ) :=
        mul_le_of_le_one_right (by positivity) hle
      have h2m : (h : ℚ) * ((maxSize : ℚ) / (w : ℚ)) ≤ (maxSize : ℚ) := by
        calc (h : ℚ) * ((maxSize : ℚ) / (w : ℚ))
            ≤ (w : ℚ) * ((maxSize : ℚ) / (w : ℚ)) :=
              mul_le_mul_of_nonneg_right (by exact_mod_cast hwh) hfrac0
          _ = (maxSize : ℚ) := heq
      rw [heq, Int.floor_natCast, Int.toNat_natCast]
      rw [hmax] at hcase
      refine ⟨le_of_lt hcase, floor_toNat_le h2h, ?_⟩
      rw [max_eq_left (floor_toNat_le h2m)]
      exact (min_eq_left (le_of_lt hcase)).symm
    · have hmax : max w h = h := max_eq_right hwh
      rw [hmax]
      have hhq : (0 : ℚ) < (h : ℚ) := by exact_mod_cast hh
      have hle : (maxSize : ℚ) / (h : ℚ) ≤ 1 := by
        rw [div_le_one hhq]
        rw [hmax] at hcase
        exact_mod_cast le_of_lt hcase
      rw [min_eq_right hle]
      have heq : (h : ℚ) * ((maxSize : ℚ) / (h : ℚ)) = (maxSize : ℚ) := by
        field_simp
      have hfrac0 : (0 : ℚ) ≤ (maxSize : ℚ) / (h : ℚ) := by positivity
      have h1w : (w : ℚ) * ((maxSize : ℚ) / (h : ℚ)) ≤ (w : ℚ) :=
        mul_le_of_le_one_right (by positivity) hle
      have h1m : (w : ℚ) * ((maxSize : ℚ) / (h : ℚ)) ≤ (maxSize : ℚ) := by
        calc (w : ℚ) * ((maxSize : ℚ) / (h : ℚ))
            ≤ (h : ℚ) * ((maxSize : ℚ) / (h : ℚ)) :=
              mul_le_mul_of_nonneg_right (by exact_mod_cast hwh) hfrac0
          _ = (maxSize : ℚ) := heq
      rw [heq, Int.floor_natCast, Int.toNat_natCast]
      rw [hmax] at hcase
      refine ⟨floor_toNat_le h1w, le_of_lt hcase, ?_⟩
      rw [max_eq_right (floor_toNat_le h1m)]
      exact (min_eq_left (le_of_lt hcase)).symm

/-- Dimension contract of processImageThroughCanvas: neither output
dimension exceeds its input and the larger output dimension is exactly
min(maxSize, larger input dimension); the smaller dimension, however, is
rounded to nearest, not down. -/
theorem processImageThroughCanvasDims_spec (w h maxSize : ℕ) :
    (V1.processImageThroughCanvasDims w h maxSize).1 ≤ w ∧
    (V1.processImageThroughCanvasDims w h maxSize).2 ≤ h ∧
    max (V1.processImageThroughCanvasDims w h maxSize).1
        (V1.processImageThroughCanvasDims w h maxSize).2 =
      min maxSize (max w h) := by
  unfold V1.processImageThroughCanvasDims
  split
  · rename_i h1
    obtain ⟨hwh, hwm⟩ := h1
    have hwq : (0 : ℚ) < (w : ℚ) := by
      exact_mod_cast Nat.lt_of_le_of_lt (Nat.zero_le h) hwh
    have hle : (maxSize : ℚ) / (w : ℚ) ≤ 1 := by
      rw [div_le_one hwq]
      exact_mod_cast le_of_lt hwm
    have hfrac0 : (0 : ℚ) ≤ (maxSize : ℚ) / (w : ℚ) := by positivity
    have hdq : (h : ℚ) * (maxSize : ℚ) / (w : ℚ) = (h : ℚ) * ((maxSize : ℚ) / (w : ℚ)) := by
      ring
    have h2h : (h : ℚ) * (maxSize : ℚ) / (w : ℚ) ≤ (h : ℚ) := by
      rw [hdq]
      exact mul_le_of_le_one_right (by positivity) hle
    have h2m : (h : ℚ) * (maxSize : ℚ) / (w : ℚ) ≤ (maxSize : ℚ) := by
      rw [hdq]
      calc (h : ℚ) * ((maxSize : ℚ) / (w : ℚ))
          ≤ (w : ℚ) * ((maxSize : ℚ) / (w : ℚ)) :=
            mul_le_mul_of_nonneg_right (by exact_mod_cast le_of_lt hwh) hfrac0
        _ = (maxSize : ℚ) := by field_simp
    refine ⟨le_of_lt hwm, jsRound_toNat_le h2h, ?_⟩
    rw [max_eq_left (jsRound_toNat_le h2m), max_eq_left (le_of_lt hwh)]
    exact (min_eq_left (le_of_lt hwm)).symm
  · split
    · rename_i h1 h2
      have hwh : w ≤ h := by
        by_contra hcon
        push_neg at hcon
        exact h1 ⟨hcon, Nat.lt_trans h2 hcon⟩
      have hhq : (0 : ℚ) < (h : ℚ) := by
        exact_mod_cast Nat.lt_of_le_of_lt (Nat.zero_le maxSize) h2
      have hle : (maxSize : ℚ) / (h : ℚ) ≤ 1 := by
        rw [div_le_one hhq]
        exact_mod_cast le_of_lt h2
      have hfrac0 : (0 : ℚ) ≤ (maxSize : ℚ) / (h : ℚ) := by positivity
      have hdq : (w : ℚ) * (maxSize : ℚ) / (h : ℚ) = (w : ℚ) * ((maxSize : ℚ) / (h : ℚ)) := by
        ring
      have h1w : (w : ℚ) * (maxSize : ℚ) / (h : ℚ) ≤ (w : ℚ) := by
        rw [hdq]
        exact mul_le_of_le_one_right (by positivity) hle
      have h1m : (w : ℚ) * (maxSize : ℚ) / (h : ℚ) ≤ (maxSize : ℚ) := by
        rw [hdq]
        calc (w : ℚ) * ((maxSize : ℚ) / (h : ℚ))
            ≤ (h : ℚ) * ((maxSize : ℚ) / (h : ℚ)) :=
              mul_le_mul_of_nonneg_right (by exact_mod_cast hwh) hfrac0
          _ = (maxSize : ℚ) := by field_simp
      refine ⟨jsRound_toNat_le h1w, le_of_lt h2, ?_⟩
      rw [max_eq_right (jsRound_toNat_le h1m), max_eq_right hwh]
      exact (min_eq_left (le_of_lt h2)).symm
    · rename_i h1 h2
      push_neg at h2
      have hmle : max w h ≤ maxSize := by
        rcases Nat.le_total w h with hc | hc
        · rw [max_eq_right hc]
          exact h2
        · rw [max_eq_left hc]
          by_cases hgt : w > h
          · by_contra hcon
            push_neg at hcon
            exact h1 ⟨hgt, hcon⟩
          · push_neg at hgt
            exact le_trans hgt h2
      exact ⟨le_refl w, le_refl h, (min_eq_right hmle).symm⟩

/-- C5 (amended): neither normalizer ever upscales — every output dimension
is at most its input dimension and the larger output dimension equals
min(maxSize, larger input dimension) in both imageToImageData and
processImageThroughCanvas; imageToImageData additionally rounds both
dimensions down (it is defined by Math.floor), while processImageThroughCanvas
rounds its scaled smaller dimension to nearest. -/
theorem normalizer_no_upscale (w h maxSize : ℕ) (hw : 0 < w) (hh : 0 < h) :
    (V2.imageToImageDataDims w h maxSize).1 ≤ w ∧
    (V2.imageToImageDataDims w h maxSize).2 ≤ h ∧
    max (V2.imageToImageDataDims w h maxSize).1 (V2.imageToImageDataDims w h maxSize).2 =
      min maxSize (max w h) ∧
    (V1.processImageThroughCanvasDims w h maxSize).1 ≤ w ∧
    (V1.processImageThroughCanvasDims w h maxSize).2 ≤ h ∧
    max (V1.processImageThroughCanvasDims w h maxSize).1
        (V1.processImageThroughCanvasDims w h maxSize).2 =
      min maxSize (max w h) := by
  obtain ⟨a1, a2, a3⟩ := imageToImageDataDims_spec w h maxSize hw hh
  obtain ⟨b1, b2, b3⟩ := processImageThroughCanvasDims_spec w h maxSize
  exact ⟨a1, a2, a3, b1, b2, b3⟩

/-- C5 witness: a 3 by 2 bitmap bounded at 2 normalizes to 2 by 1 through
imageToImageData and to 2 by 1 through processImageThroughCanvas, matching
the no-upscale contract at a concrete input. -/
theorem normalizer_no_upscale_witness :
    (V2.imageToImageDataDims 3 2 2).1 ≤ 3 ∧
    (V2.imageToImageDataDims 3 2 2).2 ≤ 2 ∧
    max (V2.imageToImageDataDims 3 2 2).1 (V2.imageToImageDataDims 3 2 2).2 =
      min 2 (max 3 2) ∧
    (V1.processImageThroughCanvasDims 3 2 2).1 ≤ 3 ∧
    (V1.processImageThroughCanvasDims 3 2 2).2 ≤ 2 ∧
    max (V1.processImageThroughCanvasDims 3 2 2).1
        (V1.processImageThroughCanvasDims 3 2 2).2 =
      min 2 (max 3 2) :=
  normalizer_no_upscale 3 2 2 (by norm_num) (by norm_num)

/-- C5 counterexample: a 2001 by 1000 bitmap bounded at 2000 gets height
1000 from processImageThroughCanvas (Math.round of 999.50025), while
rounding down as the claim specifies — as imageToImageData does — gives
height 999: the claim that both output dimensions are rounded down is false
for processImageThroughCanvas. -/
theorem canvas_rounding_cex :
    V1.processImageThroughCanvasDims 2001 1000 2000 = (2000, 1000) ∧
    V2.imageToImageDataDims 2001 1000 2000 = (2000, 999) ∧
    (1000 : ℕ) ≠ 999 := by
  refine ⟨?_, ?_, by norm_num⟩
  · unfold V1.processImageThroughCanvasDims
    norm_num [jsRound]
    rfl
  · unfold V2.imageToImageDataDims
    have hmax : (max 2001 1000 : ℕ) = 2001 := by norm_num
    rw [hmax]
    dsimp only
    push_cast
    have hmin : min (1 : ℚ) ((2000 : ℚ) / (2001 : ℚ)) = (2000 : ℚ) / (2001 : ℚ) := by
      rw [min_eq_right]
      rw [div_le_one (by norm_num)]
      norm_num
    rw [hmin]
    simp only [Prod.mk.injEq]
    constructor
    · norm_num
      rfl
    · norm_num
      rfl

/-! Claim C6. -/

/-- The alpha scan starting at index i with enough fuel returns true
exactly when some visited index i + 4k holds a byte below 255. -/
theorem alphaScanAux_spec (data : List ℕ) :
    ∀ fuel i, data.length ≤ i + 4 * fuel →
      (alphaScanAux data fuel i = true ↔
        ∃ k, i + 4 * k < data.length ∧ data.getD (i + 4 * k) 0 < 255) := by
  intro fuel
  induction fuel with
  | zero =>
    intro i h
    simp only [alphaScanAux]
    constructor
    · intro hfalse
      exact absurd hfalse (by simp)
    · rintro ⟨k, hk, _⟩
      omega
  | succ fuel ih =>
    intro i h
    by_cases hi : i < data.length
    · by_cases hd : data.getD i 0 < 255
      · simp only [alphaScanAux, if_pos hi, if_pos hd]
        constructor
        · intro _
          exact ⟨0, by omega, by simpa using hd⟩
        · intro _
          trivial
      · simp only [alphaScanAux, if_pos hi, if_neg hd]
        rw [ih (i + 4) (by omega)]
        constructor
        · rintro ⟨k, hk1, hk2⟩
          refine ⟨k + 1, by omega, ?_⟩
          have harith : i + 4 * (k + 1) = i + 4 + 4 * k := by ring
          rw [harith]
          exact hk2
        · rintro ⟨k, hk1, hk2⟩
          cases k with
          | zero =>
            exfalso
            apply hd
            simpa using hk2
          | succ k2 =>
            refine ⟨k2, by omega, ?_⟩
            have harith : i + 4 + 4 * k2 = i + 4 * (k2 + 1) := by ring
            rw [harith]
            exact hk2
    · simp only [alphaScanAux, if_neg hi]
      constructor
      · intro hfalse
        exact absurd hfalse (by simp)
      · rintro ⟨k, hk, _⟩
        omega

/-- C6: for an RGBA buffer of n pixels (4n bytes), imageHasAlpha is true
exactly when some pixel's alpha byte (index 4p + 3) is below full opacity,
and processFile applies the white-background flattening exactly when
imageHasAlpha is false. -/
theorem imageHasAlpha_iff (data flattened : List ℕ) (n : ℕ) (hlen : data.length = 4 * n) :
    (imageHasAlpha data = true ↔ ∃ p, p < n ∧ data.getD (4 * p + 3) 0 < 255) ∧
    ((V2.selectFinalImageData data flattened).2 = true ↔ imageHasAlpha data = false) := by
  constructor
  · rw [imageHasAlpha, alphaScanAux_spec data data.length 3 (by omega)]
    constructor
    · rintro ⟨k, hk1, hk2⟩
      refine ⟨k, by omega, ?_⟩
      rw [show 4 * k + 3 = 3 + 4 * k from by ring]
      exact hk2
    · rintro ⟨p, hp, hval⟩
      refine ⟨p, by omega, ?_⟩
      rw [show 3 + 4 * p = 4 * p + 3 from by ring]
      exact hval
  · rw [V2.selectFinalImageData]
    by_cases ha : imageHasAlpha data
    · rw [if_pos ha]
      simp [ha]
    · rw [if_neg ha]
      simp only [Bool.not_eq_true] at ha
      simp [ha]

/-- C6 witness: an 8-byte buffer of two pixels whose second alpha byte is
200 satisfies the characterization: imageHasAlpha is true and the second
pixel witnesses it, and no flattening is applied. -/
theorem imageHasAlpha_iff_witness :
    (imageHasAlpha [1, 2, 3, 255, 4, 5, 6, 200] = true ↔
      ∃ p, p < 2 ∧ List.getD [1, 2, 3, 255, 4, 5, 6, 200] (4 * p + 3) 0 < 255) ∧
    ((V2.selectFinalImageData [1, 2, 3, 255, 4, 5, 6, 200] []).2 = true ↔
      imageHasAlpha [1, 2, 3, 255, 4, 5, 6, 200] = false) :=
  imageHasAlpha_iff [1, 2, 3, 255, 4, 5, 6, 200] [] 2 rfl

/-! Claim C7. -/

/-- Folding the digit-evaluation step from an arbitrary accumulator scales
the accumulator by 10 to the length of the list. -/
theorem charsVal_foldl_init (l : List Char) :
    ∀ a : ℕ, l.foldl (fun a c => 10 * a + (c.toNat - 48)) a =
      a * 10 ^ l.length + charsVal l := by
  induction l with
  | nil =>
    intro a
    simp [charsVal]
  | cons c t ih =>
    intro a
    simp only [List.foldl_cons, List.length_cons, charsVal]
    rw [ih (10 * a + (c.toNat - 48)), ih (10 * 0 + (c.toNat - 48))]
    ring

/-- Evaluating the character of a single decimal digit recovers the digit. -/
theorem digitChar_toNat_sub {d : ℕ} (h : d < 10) : (Nat.digitChar d).toNat - 48 = d := by
  interval_cases d <;> rfl

/-- The decimal rendering evaluates back to the rendered number. -/
theorem charsVal_natCharsAux : ∀ fuel n, n < fuel →
    charsVal (V2.natCharsAux fuel n) = n := by
  intro fuel
  induction fuel with
  | zero =>
    intro n h
    exact absurd h (Nat.not_lt_zero n)
  | succ fuel ih =>
    intro n h
    by_cases hlt : n < 10
    · simp only [V2.natCharsAux, if_pos hlt]
      simp [charsVal, digitChar_toNat_sub hlt]
    · simp only [V2.natCharsAux, if_neg hlt]
      push_neg at hlt
      have hdiv : n / 10 < fuel := by
        have h1 : n / 10 < n := Nat.div_lt_self (by omega) (by omega)
        omega
      have hmod : n % 10 < 10 := Nat.mod_lt n (by omega)
      have hin := ih (n / 10) hdiv
      simp only [charsVal] at hin ⊢
      rw [List.foldl_append, hin]
      simp only [List.foldl_cons, List.foldl_nil]
      rw [digitChar_toNat_sub hmod]
      omega

/-- charsVal is a left inverse of natChars. -/
theorem charsVal_natChars (n : ℕ) : charsVal (V2.natChars n) = n :=
  charsVal_natCharsAux (n + 1) n (Nat.lt_succ_self n)

/-- Distinct numbers have distinct decimal renderings. -/
theorem natChars_inj {m n : ℕ} (h : V2.natChars m = V2.natChars n) : m = n := by
  have hm := charsVal_natChars m
  rw [h, charsVal_natChars] at hm
  omega

/-- A decimal rendering is never empty. -/
theorem natChars_ne_nil (n : ℕ) : V2.natChars n ≠ [] := by
  rw [V2.natChars]
  by_cases h : n < 10
  · simp [V2.natCharsAux, h]
  · simp [V2.natCharsAux, h]

/-- The candidate names tried by getUniqueName are pairwise distinct. -/
theorem candidateName_inj (b e : List Char) :
    ∀ j k, V2.candidateName b e j = V2.candidateName b e k → j = k := by
  have hlen : ∀ k2, (V2.candidateName b e 0).length ≠ (V2.candidateName b e (k2 + 1)).length := by
    intro k2
    have hpos : 0 < (V2.natChars (k2 + 1)).length :=
      List.length_pos.mpr (natChars_ne_nil (k2 + 1))
    simp only [V2.candidateName, List.length_append, List.length_cons, List.length_nil]
    omega
  intro j k h
  match j, k with
  | 0, 0 => rfl
  | 0, Nat.succ k2 =>
    exact absurd (congrArg List.length h) (hlen k2)
  | Nat.succ j2, 0 =>
    exact absurd (congrArg List.length h.symm) (hlen j2)
  | Nat.succ j2, Nat.succ k2 =>
    simp only [V2.candidateName] at h
    have h1 := List.append_cancel_right h
    have h2 := List.append_cancel_right h1
    have h3 := List.append_cancel_left h2
    have := natChars_inj h3
    omega

/-- If fewer than fuel of the next fuel candidate names are taken, the
while loop of getUniqueName lands on a free name. -/
theorem getUniqueNameLoop_not_mem (b e : List Char) (ex : List (List Char)) :
    ∀ fuel count,
      ((Finset.Ico count (count + fuel)).filter
        (fun k => V2.candidateName b e k ∈ ex)).card < fuel →
      V2.getUniqueNameLoop b e ex fuel count ∉ ex := by
  intro fuel
  induction fuel with
  | zero =>
    intro count h
    exact absurd h (by omega)
  | succ fuel ih =>
    intro count h
    by_cases hc : V2.candidateName b e count ∈ ex
    · simp only [V2.getUniqueNameLoop, if_pos hc]
      apply ih (count + 1)
      have hmem : count ∈ (Finset.Ico count (count + (fuel + 1))).filter
          (fun k => V2.candidateName b e k ∈ ex) := by
        rw [Finset.mem_filter, Finset.mem_Ico]
        exact ⟨⟨le_refl count, by omega⟩, hc⟩
      have hico : Finset.Ico (count + 1) (count + 1 + fuel) =
          (Finset.Ico count (count + (fuel + 1))).erase count := by
        ext x
        simp only [Finset.mem_Ico, Finset.mem_erase]
        omega
      have hpos : 0 < ((Finset.Ico count (count + (fuel + 1))).filter
          (fun k => V2.candidateName b e k ∈ ex)).card :=
        Finset.card_pos.mpr ⟨count, hmem⟩
      rw [hico, Finset.filter_erase, Finset.card_erase_of_mem hmem]
      omega
    · simp only [V2.getUniqueNameLoop, if_neg hc]
      exact hc

/-- getUniqueName always returns a name that is not already taken: among
the first existingNames.length + 1 pairwise-distinct candidates, at most
existingNames.length can be taken. -/
theorem getUniqueName_not_mem (b e : List Char) (ex : List (List Char)) :
    V2.getUniqueName b e ex ∉ ex := by
  rw [V2.getUniqueName]
  apply getUniqueNameLoop_not_mem
  have hinj : Set.InjOn (fun k => V2.candidateName b e k)
      ((Finset.Ico 0 (0 + (ex.length + 1))).filter
        (fun k => V2.candidateName b e k ∈ ex)) := by
    intro x _ y _ hxy
    exact candidateName_inj b e x y hxy
  have hmaps : ∀ k ∈ (Finset.Ico 0 (0 + (ex.length + 1))).filter
      (fun k => V2.candidateName b e k ∈ ex),
      (fun k => V2.candidateName b e k) k ∈ ex.toFinset := by
    intro k hk
    rw [List.mem_toFinset]
    exact (Finset.mem_filter.mp hk).2
  have hcard := Finset.card_le_card_of_injOn
    (fun k => V2.candidateName b e k) hmaps hinj
  have htf : ex.toFinset.card ≤ ex.length := ex.toFinset_card_le
  omega

/-- Names assigned across a batch are pairwise distinct and avoid all
previously existing names. -/
theorem assignNames_spec (files : List (List Char × List Char)) :
    ∀ ex, (V2.assignNames files ex).Nodup ∧
      ∀ nm ∈ V2.assignNames files ex, nm ∉ ex := by
  induction files with
  | nil =>
    intro ex
    simp [V2.assignNames]
  | cons fe rest ih =>
    intro ex
    obtain ⟨b, e⟩ := fe
    simp only [V2.assignNames]
    obtain ⟨ihn, ihm⟩ := ih (V2.getUniqueName b e ex :: ex)
    refine ⟨?_, ?_⟩
    · rw [List.nodup_cons]
      refine ⟨?_, ihn⟩
      intro hmem
      exact (ihm _ hmem) (List.mem_cons_self _ _)
    · intro nm hnm
      rcases List.mem_cons.mp hnm with heq | htail
      · rw [heq]
        exact getUniqueName_not_mem b e ex
      · intro hex
        exact (ihm nm htail) (List.mem_cons_of_mem _ hex)

/-- C7 (amended): in the jsquash client, within a batch every assigned
output name is unique (and distinct from all names already in the
collection), and a second file whose derived base name collides with an
existing opt_photo.avif is resolved to opt_photo_1.avif by the
incrementing numeric suffix. -/
theorem batch_names_unique (files : List (List Char × List Char))
    (existingNames : List (List Char)) :
    (V2.assignNames files existingNames).Nodup ∧
    (∀ nm ∈ V2.assignNames files existingNames, nm ∉ existingNames) ∧
    V2.getUniqueName (("opt_photo").data) (("avif").data)
      [("opt_photo.avif").data] = ("opt_photo_1.avif").data := by
  obtain ⟨h1, h2⟩ := assignNames_spec files existingNames
  exact ⟨h1, h2, by decide⟩

/-- C7 witness: a batch of two files that both derive the base name
opt_photo gets distinct output names. -/
theorem batch_names_unique_witness :
    (V2.assignNames [(("opt_photo").data, ("avif").data),
      (("opt_photo").data, ("avif").data)] []).Nodup ∧
    (∀ nm ∈ V2.assignNames [(("opt_photo").data, ("avif").data),
      (("opt_photo").data, ("avif").data)] [], nm ∉ ([] : List (List Char))) ∧
    V2.getUniqueName (("opt_photo").data) (("avif").data)
      [("opt_photo.avif").data] = ("opt_photo_1.avif").data :=
  batch_names_unique [(("opt_photo").data, ("avif").data),
    (("opt_photo").data, ("avif").data)] []

/-! Claim C8. -/

/-- Exhaustive branch behavior of the request handler, shared by the
status-code claims: verb gate, header-based size gate, body validation,
and the outcome of the processing section. -/
theorem handler_branches (e : Netlify.Event) (proc : Except Netlify.JsError (ℕ × ℕ)) :
    (e.httpMethod ≠ ("POST") → Netlify.handler proc e = (405, false)) ∧
    (e.httpMethod = ("POST") → (Netlify.MAX_SIZE : ℤ) < Netlify.parsedContentLength e →
      Netlify.handler proc e = (413, false)) ∧
    (e.httpMethod = ("POST") → ¬ (Netlify.MAX_SIZE : ℤ) < Netlify.parsedContentLength e →
      (e.bodyBytes = none ∨ e.bodyBytes = some []) →
      Netlify.handler proc e = (400, false)) ∧
    (∀ bs x, e.httpMethod = ("POST") →
      ¬ (Netlify.MAX_SIZE : ℤ) < Netlify.parsedContentLength e →
      e.bodyBytes = some bs → bs ≠ [] → proc = Except.ok x →
      Netlify.handler proc e = (200, true)) ∧
    (∀ bs err, e.httpMethod = ("POST") →
      ¬ (Netlify.MAX_SIZE : ℤ) < Netlify.parsedContentLength e →
      e.bodyBytes = some bs → bs ≠ [] → proc = Except.error err →
      Netlify.handler proc e = (err.statusCode.getD 500, true)) := by
  refine ⟨?_, ?_, ?_, ?_, ?_⟩
  · intro hm
    unfold Netlify.handler
    rw [if_pos hm]
  · intro hm hs
    unfold Netlify.handler
    rw [if_neg (fun hcon => hcon hm), if_pos hs]
  · intro hm hs hb
    unfold Netlify.handler
    rw [if_neg (fun hcon => hcon hm), if_neg hs]
    rcases hb with hb | hb <;> rw [hb]
  · intro bs x hm hs hb hbs hp
    unfold Netlify.handler
    rw [if_neg (fun hcon => hcon hm), if_neg hs, hb, hp]
    cases bs with
    | nil => exact absurd rfl hbs
    | cons y t => rfl
  · intro bs err hm hs hb hbs hp
    unfold Netlify.handler
    rw [if_neg (fun hcon => hcon hm), if_neg hs, hb, hp]
    cases bs with
    | nil => exact absurd rfl hbs
    | cons y t => rfl

/-- C8 (amended): a non-POST verb gets 405, a missing or empty body gets
400, a request whose content-length header exceeds the 10 MiB ceiling gets
413 without the processing section being reached, and a processing failure
that carries no status code of its own — such as the 9-second timeout —
gets 500. -/
theorem handler_status_codes (e : Netlify.Event) (proc : Except Netlify.JsError (ℕ × ℕ)) :
    (e.httpMethod ≠ ("POST") → Netlify.handler proc e = (405, false)) ∧
    (e.httpMethod = ("POST") → (Netlify.MAX_SIZE : ℤ) < Netlify.parsedContentLength e →
      Netlify.handler proc e = (413, false)) ∧
    (e.httpMethod = ("POST") → ¬ (Netlify.MAX_SIZE : ℤ) < Netlify.parsedContentLength e →
      (e.bodyBytes = none ∨ e.bodyBytes = some []) →
      Netlify.handler proc e = (400, false)) ∧
    (∀ bs, e.httpMethod = ("POST") →
      ¬ (Netlify.MAX_SIZE : ℤ) < Netlify.parsedContentLength e →
      e.bodyBytes = some bs → bs ≠ [] → proc = Except.error ⟨none⟩ →
      Netlify.handler proc e = (500, true)) := by
  obtain ⟨h1, h2, h3, _, h5⟩ := handler_branches e proc
  exact ⟨h1, h2, h3, fun bs hm hs hb hbs hp => h5 bs ⟨none⟩ hm hs hb hbs hp⟩

/-- C8 witness: concrete requests exercise all four status branches — a GET
gets 405, a POST declaring 12582912 bytes in content-length gets 413, a
POST without a body gets 400, and a POST whose processing throws a plain
error gets 500. -/
theorem handler_status_codes_witness :
    Netlify.handler (Except.ok (1, 1)) ⟨("GET"), none, none⟩ = (405, false) ∧
    Netlify.handler (Except.ok (1, 1)) ⟨("POST"), some ("12582912"), some [1]⟩ = (413, false) ∧
    Netlify.handler (Except.ok (1, 1)) ⟨("POST"), none, none⟩ = (400, false) ∧
    Netlify.handler (Except.error ⟨none⟩) ⟨("POST"), none, some [1]⟩ = (500, true) :=
  ⟨(handler_status_codes ⟨("GET"), none, none⟩ (Except.ok (1, 1))).1 (by decide),
   (handler_status_codes ⟨("POST"), some ("12582912"), some [1]⟩
      (Except.ok (1, 1))).2.1 rfl (by decide),
   (handler_status_codes ⟨("POST"), none, none⟩ (Except.ok (1, 1))).2.2.1 rfl
      (by decide) (Or.inl rfl),
   (handler_status_codes ⟨("POST"), none, some [1]⟩ (Except.error ⟨none⟩)).2.2.2
      [1] rfl (by decide) rfl (by decide) rfl⟩

/-- C8 counterexample: a POST whose decoded body is 12 MiB (12582912 bytes,
over the 10 MiB ceiling) but that carries no content-length header is not
rejected with 413 — the handler reaches the processing section and answers
200, because the size check reads only the header. -/
theorem handler_size_limit_cex :
    Netlify.MAX_SIZE < (List.replicate 12582912 (0 : ℕ)).length ∧
    Netlify.handler (Except.ok (1, 1))
      ⟨("POST"), none, some (List.replicate 12582912 (0 : ℕ))⟩ = (200, true) := by
  constructor
  · rw [List.length_replicate]
    norm_num [Netlify.MAX_SIZE]
  · refine (handler_branches ⟨("POST"), none, some (List.replicate 12582912 (0 : ℕ))⟩
      (Except.ok (1, 1))).2.2.2.1 (List.replicate 12582912 (0 : ℕ)) (1, 1) rfl
      (by decide) rfl ?_ rfl
    intro hnil
    have hlen := congrArg List.length hnil
    rw [List.length_replicate] at hlen
    exact absurd hlen (by norm_num)

/-! Claim C9. -/

/-- Accumulator form of the queue drain: the results list is the
accumulator followed by one report per queued item in order. -/
theorem processNext_acc {α β ε : Type} (run : α → Except ε β) :
    ∀ (q : List α) (acc : List (α × Option β)),
      Queue.processNext run q acc = acc ++ q.map (fun file =>
        (file, match run file with
          | Except.ok r => some r
          | Except.error _ => none)) := by
  intro q
  induction q with
  | nil =>
    intro acc
    simp [Queue.processNext]
  | cons f rest ih =>
    intro acc
    simp only [Queue.processNext, List.map_cons]
    rw [ih]
    simp

/-- C9: draining the queue reports exactly one outcome per enqueued item,
in order — an item whose processing throws is marked failed (none) by the
catch in processNext and the loop continues, so a failure never removes or
blocks later items, and no item is processed twice. -/
theorem processNext_isolates_failures {α β ε : Type} (run : α → Except ε β) (q : List α) :
    Queue.processNext run q [] = q.map (fun file =>
      (file, match run file with
        | Except.ok r => some r
        | Except.error _ => none)) ∧
    (Queue.processNext run q []).map Prod.fst = q := by
  have h := processNext_acc run q []
  rw [List.nil_append] at h
  refine ⟨h, ?_⟩
  rw [h, List.map_map]
  have hcomp : (Prod.fst ∘ fun file : α =>
      (file, match run file with
        | Except.ok r => some r
        | Except.error _ => none)) = id :=
    funext fun x => rfl
  rw [hcomp, List.map_id]

/-! Claim C10. -/

/-- C10: the 413 response is characterized purely by the verb and the
parsed content-length header — a missing header parses as 0 — and the
decoded body's actual byte count is never consulted: any POST with no
content-length header and a nonempty body of any size reaches the
processing section and is answered 200 on success. -/
theorem handler_content_length_only :
    (∀ (proc : Except Netlify.JsError (ℕ × ℕ)) (e : Netlify.Event),
      (Netlify.handler proc e = (413, false) ↔
        e.httpMethod = ("POST") ∧
          (Netlify.MAX_SIZE : ℤ) < Netlify.parsedContentLength e)) ∧
    Netlify.parsedContentLength ⟨("POST"), none, some [1]⟩ = 0 ∧
    (∀ bytes : List ℕ, bytes ≠ [] →
      Netlify.handler (Except.ok (1, 1)) ⟨("POST"), none, some bytes⟩ = (200, true)) := by
  refine ⟨?_, by decide, ?_⟩
  · intro proc e
    unfold Netlify.handler
    by_cases hm : e.httpMethod ≠ ("POST")
    · rw [if_pos hm]
      constructor
      · intro h
        exact absurd h (by simp)
      · rintro ⟨hp, _⟩
        exact absurd hp hm
    · push_neg at hm
      rw [if_neg (fun hcon => hcon hm)]
      by_cases hs : (Netlify.MAX_SIZE : ℤ) < Netlify.parsedContentLength e
      · rw [if_pos hs]
        simp [hm, hs]
      · rw [if_neg hs]
        cases hb : e.bodyBytes with
        | none => simp [hs]
        | some bs =>
          cases bs with
          | nil => simp [hs]
          | cons y t =>
            cases proc with
            | ok x => simp [hs]
            | error err => simp [hs]
  · intro bytes hbytes
    have hzero : Netlify.parsedContentLength ⟨("POST"), none, some bytes⟩ = 0 := rfl
    have hns : ¬ (Netlify.MAX_SIZE : ℤ) <
        Netlify.parsedContentLength ⟨("POST"), none, some bytes⟩ := by
      rw [hzero]
      decide
    exact (handler_branches ⟨("POST"), none, some bytes⟩
      (Except.ok (1, 1))).2.2.2.1 bytes (1, 1) rfl hns rfl hbytes rfl

/-- C1 witness: at a concrete oracle the keep-smaller selection of the
jsquash processFile indeed never exceeds the pass-1 size. -/
theorem processFilePasses_never_regress_witness :
    (V2.processFilePasses 200000 encGrow).finalSize ≤ encGrow 70 :=
  processFilePasses_never_regress 200000 encGrow

/-- C4 witness: concrete instantiation of the size-attribution theorem —
the ImagePool outcome is unchanged when only the original file size
changes, and both reported reductions divide by the original size. -/
theorem reported_vs_acceptance_sizes_witness :
    (V1.processFile 1000000 200000 encGrow).outcome =
      (V1.processFile 500000 200000 encGrow).outcome ∧
    (V1.processFile 1000000 200000 encGrow).reportedReduction =
      1 - ((V1.processFile 1000000 200000 encGrow).outcome.finalSize : ℚ) / (1000000 : ℚ) ∧
    ((V2.processFilePasses 60000 encGrow).twoPass = false ↔
      ¬ (1 - (encGrow 70 : ℚ) / (60000 : ℚ) < 3/10)) ∧
    V2.reportedReduction 60000 encGrow =
      1 - ((V2.processFilePasses 60000 encGrow).finalSize : ℚ) / (60000 : ℚ) :=
  reported_vs_acceptance_sizes 1000000 500000 200000 60000 encGrow

/-- C9 witness: a three-item queue whose middle item fails is drained to
three reports in order, the middle one marked failed. -/
theorem processNext_isolates_failures_witness :
    Queue.processNext (fun n : ℕ => if n = 1 then Except.error 0 else Except.ok n)
        [0, 1, 2] [] =
      [0, 1, 2].map (fun file =>
        (file, match (if file = 1 then Except.error 0 else Except.ok file :
            Except ℕ ℕ) with
          | Except.ok r => some r
          | Except.error _ => none)) ∧
    (Queue.processNext (fun n : ℕ => if n = 1 then Except.error 0 else Except.ok n)
        [0, 1, 2] []).map Prod.fst = [0, 1, 2] :=
  processNext_isolates_failures (fun n : ℕ => if n = 1 then Except.error 0 else Except.ok n)
    [0, 1, 2]

/-- C7 counterexample: the ImagePool client derives output names with no
collision resolution, so a single batch containing photo.jpg and photo.png
produces the output name x-photo.avif twice — the claim that every
ProcessingResult's output name is unique within a batch is false for that
client. -/
theorem batch_names_duplicate_cex :
    V1.batchNames [("photo.jpg").data, ("photo.png").data] =
      [("x-photo.avif").data, ("x-photo.avif").data] ∧
    ¬ (V1.batchNames [("photo.jpg").data, ("photo.png").data]).Nodup := by
  constructor
  · decide
  · decide
